import Mathlib

/-!
Verification of the throttling middleware of `tgbot_template_v3`
(`src/tgbot/middlewares/throttling.py`).

The middleware keeps a registry `caches : Dict[str, TTLCache]` (one entry,
`"default" ↦ TTLCache(maxsize=10_000, ttl=2)`).  On each event it reads the
`rate_limit` flag; when absent it calls the downstream handler directly.
When present it resolves the flag's `key` (default `"default"`) against the
registry, falling back to the `"default"` cache, checks membership of
`event.chat.id` in the resolved `TTLCache`, returns early (throttled) on a
hit, and otherwise inserts the chat id and calls the handler.

The `TTLCache` container comes from `cachetools`: a bounded mapping whose
entries carry an expiry timestamp `insertion time + ttl`.  Membership
(`__contains__`) reports a key present only while `now < expires` and does
not mutate.  Insertion (`__setitem__`) first removes the expired prefix of
the expiry-ordered entry list (`expire`), then, while the store is full,
pops the oldest remaining entry (`popitem`), and finally appends the new
entry with expiry `now + ttl`.

Timestamps are modelled as integers (an arbitrary-precision discretisation
of the Python monotonic clock: every comparison the code performs is between
sums of clock readings and the constant ttl), chat and user ids as integers.
-/

set_option autoImplicit false

namespace Throttling

/-- A `cachetools.TTLCache(maxsize, ttl)`.  `entries` is the expiry-ordered
linked list of the cache: pairs of key and expiry timestamp, oldest first
(since every entry gets the same `ttl`, expiry order is insertion order). -/
structure TTLCache where
  ttl : ℤ
  maxsize : ℕ
  entries : List (ℤ × ℤ)
deriving DecidableEq, Repr

/-- Membership test `key in cache` (`TTLCache.__contains__`): the key is present and its
entry has not expired (`self.timer() < link.expires`).  No mutation. -/
def TTLCache.memberAt (c : TTLCache) (k : ℤ) (now : ℤ) : Bool :=
  c.entries.any fun e => e.1 == k && decide (now < e.2)

/-- Expiry sweep `TTLCache.expire(time)`: remove the leading run of entries whose expiry
has passed (`not (time < curr.expires)`), stopping at the first live one. -/
def expirePurge (now : ℤ) (l : List (ℤ × ℤ)) : List (ℤ × ℤ) :=
  l.dropWhile fun e => decide (e.2 ≤ now)

/-- The entries surviving an insertion at `now`: first `expire(now)` drops
the expired prefix, then the `Cache.__setitem__` eviction loop pops the
oldest remaining entry while the store is at `maxsize`. -/
def TTLCache.room (c : TTLCache) (now : ℤ) : List (ℤ × ℤ) :=
  if c.maxsize ≤ (expirePurge now c.entries).length
    then (expirePurge now c.entries).drop
      ((expirePurge now c.entries).length + 1 - c.maxsize)
    else expirePurge now c.entries

/-- Insertion `cache[k] = True` (`TTLCache.__setitem__`) on the insert path of the
middleware, where `k` is not a live member: run `expire(now)`, evict while
full, then append the new entry with expiry `now + ttl`. -/
def TTLCache.insertAt (c : TTLCache) (k : ℤ) (now : ℤ) : TTLCache :=
  { c with entries := c.room now ++ [(k, now + c.ttl)] }

/-- Lines 76–82 of `throttling.py`, the spec's `should_admit`: if the chat id
is a live member, return early (`False`, store untouched); otherwise mark it
(`True`, store gains the entry). -/
def TTLCache.shouldAllow (c : TTLCache) (k : ℤ) (now : ℤ) : Bool × TTLCache :=
  if c.memberAt k now then (false, c) else (true, c.insertAt k now)

/-- Chat of a message (`message.chat`): carries the chat id used as throttling subject. -/
structure Chat where
  id : ℤ
deriving DecidableEq, Repr

/-- An aiogram `Message` event: the chat it arrived in and the id of the
sending user (`message.from_user`), which the middleware never reads. -/
structure Message where
  chat : Chat
  fromUser : Option ℤ
deriving DecidableEq, Repr

/-- The value of the `rate_limit` flag: a dict that may carry a `"key"`
naming the policy (`throttling_key.get("key", "default")`). -/
structure RateLimitFlag where
  key : Option String
deriving DecidableEq, Repr

/-- The handler `data` dict as far as the middleware reads it:
`get_flag(data, "rate_limit")` yields `rateLimit`. -/
structure HandlerData where
  rateLimit : Option RateLimitFlag
deriving DecidableEq, Repr

/-- The middleware's registry `caches : Dict[str, TTLCache]`. -/
abbrev Registry := List (String × TTLCache)

/-- Dict lookup `caches.get(key)` on the registry (keys are unique). -/
def lookupCache : Registry → String → Option TTLCache
  | [], _ => none
  | p :: ps, k => if p.1 = k then p.2 else lookupCache ps k

/-- In-place mutation of the named store (the Python dict holds the caches
by reference, so `cache[event.chat.id] = True` updates `caches[name]`). -/
def setCache : Registry → String → TTLCache → Registry
  | [], _, _ => []
  | p :: ps, k, c => if p.1 = k then (k, c) :: ps else p :: setCache ps k c

/-- The two fatal conditions of the spec's rate limiter. -/
inductive RLError
  | configurationError
  | unknownPolicy
deriving DecidableEq, Repr

/-- Holds (`true`) exactly on `Except.ok` results. -/
def isOkResult {β : Type} : Except RLError β → Bool
  | .ok _ => true
  | .error _ => false

/-- Policy resolution, lines 71–73: `self.caches.get(cache_key,
self.caches["default"])` — a known key yields its own store, an unknown key
falls back to the `"default"` store.  Modelled from the spec: the
`UnknownPolicyError` raised when no default is registered; the shipped
registry always holds `"default"`, so that branch has no code under `src/`. -/
def resolveCache (reg : Registry) (k : String) : Except RLError (String × TTLCache) :=
  match lookupCache reg k with
  | some c => .ok (k, c)
  | none =>
    match lookupCache reg "default" with
    | some d => .ok ("default", d)
    | none => .error .unknownPolicy

/-- Modelled from the spec: `register_policy(name, window, capacity)`, which
has no code under `src/` (the shipped registry is the literal on lines 20–22).
Fails with `ConfigurationError` when `window <= 0` or `capacity <= 0`;
re-registering an existing name is a no-op; otherwise adds a fresh empty
store for the policy. -/
def registerPolicy (reg : Registry) (name : String) (window : ℤ) (capacity : ℤ) :
    Except RLError Registry :=
  if window ≤ 0 ∨ capacity ≤ 0 then .error .configurationError
  else if (lookupCache reg name).isSome then .ok reg
  else .ok (reg ++ [(name, ⟨window, capacity.toNat, []⟩)])

/-- Result of one middleware call: either the downstream handler ran and
produced a value, or the event was throttled (the Python `return` on line 77,
yielding `None` with no side effects). -/
inductive Outcome (α : Type)
  | handled (a : α)
  | throttled
deriving DecidableEq, Repr

/-- Middleware body `ThrottlingMiddleware.__call__` (lines 64–85): read the `rate_limit`
flag; unflagged events go straight to the handler.  Flagged events resolve
their cache, throttle on a live membership hit, and otherwise mark the chat
id and run the handler. -/
def middlewareCall {α : Type} (reg : Registry) (handler : Message → HandlerData → α)
    (event : Message) (data : HandlerData) (now : ℤ) :
    Except RLError (Outcome α × Registry) :=
  match data.rateLimit with
  | none => .ok (.handled (handler event data), reg)
  | some flag =>
    let cacheKey := flag.key.getD "default"
    match resolveCache reg cacheKey with
    | .error e => .error e
    | .ok nc =>
      if nc.2.memberAt event.chat.id now then
        .ok (.throttled, reg)
      else
        .ok (.handled (handler event data),
             setCache reg nc.1 (nc.2.insertAt event.chat.id now))

/-- The registry literal of lines 20–22:
`{"default": TTLCache(maxsize=10_000, ttl=2)}`. -/
def caches : Registry := [("default", ⟨2, 10000, []⟩)]

/-- A sequence of checks for one subject at the given times, threading the
store (results listed in call order). -/
def runChecks (c : TTLCache) (k : ℤ) : List ℤ → List Bool × TTLCache
  | [] => ([], c)
  | t :: ts =>
    let r := c.shouldAllow k t
    let rest := runChecks r.2 k ts
    (r.1 :: rest.1, rest.2)

/-- A sequence of checks for the given subjects, all at one time, threading
the store. -/
def allowSeq (c : TTLCache) (t : ℤ) : List ℤ → List Bool × TTLCache
  | [] => ([], c)
  | x :: xs =>
    let r := c.shouldAllow x t
    let rest := allowSeq r.2 t xs
    (r.1 :: rest.1, rest.2)

/-! ### Helper lemmas about the cache operations -/

theorem dropWhile_eq_self_of_false {α : Type} {p : α → Bool} {l : List α}
    (h : ∀ e ∈ l, p e = false) : l.dropWhile p = l := by
  cases l with
  | nil => rfl
  | cons a l => simp [List.dropWhile_cons, h a (by simp)]

theorem insertAt_ttl (c : TTLCache) (k : ℤ) (t : ℤ) :
    (c.insertAt k t).ttl = c.ttl := rfl

theorem insertAt_maxsize (c : TTLCache) (k : ℤ) (t : ℤ) :
    (c.insertAt k t).maxsize = c.maxsize := rfl

theorem room_sublist (c : TTLCache) (t : ℤ) :
    (c.room t).Sublist c.entries := by
  have hsub : (expirePurge t c.entries).Sublist c.entries :=
    List.dropWhile_sublist _
  unfold TTLCache.room
  split
  · exact (List.drop_sublist _ _).trans hsub
  · exact hsub

theorem memberAt_eq_false_iff (c : TTLCache) (k : ℤ) (t : ℤ) :
    c.memberAt k t = false ↔ ∀ e ∈ c.entries, e.1 = k → e.2 ≤ t := by
  simp only [TTLCache.memberAt]
  rw [← Bool.not_eq_true, List.any_eq_true]
  constructor
  · intro h e he hk
    by_contra hlt
    exact h ⟨e, he, by simp [hk]; omega⟩
  · rintro h ⟨e, he, hp⟩
    simp only [Bool.and_eq_true, beq_iff_eq, decide_eq_true_eq] at hp
    have := h e he hp.1
    omega

/-- Shape of the store right after an admitted insertion: the new entry
sits at the end with expiry `t + ttl`, and every surviving entry for the
same key (necessarily one already expired at `t`) has expiry `≤ t`. -/
theorem insertAt_shape (c : TTLCache) (k : ℤ) (t : ℤ)
    (h : c.memberAt k t = false) :
    (c.insertAt k t).entries = c.room t ++ [(k, t + c.ttl)] ∧
      ∀ e ∈ c.room t, e.1 = k → e.2 ≤ t := by
  refine ⟨rfl, fun e he hk => ?_⟩
  exact (memberAt_eq_false_iff c k t).1 h e ((room_sublist c t).subset he) hk

/-- Membership of the inserted key after an admitted insertion is decided
purely by the window: live before `t + ttl`, gone from then on (for checks
at `t` or later, as the monotonic clock guarantees). -/
theorem memberAt_after_insert (c : TTLCache) (k : ℤ) (t u : ℤ)
    (h : c.memberAt k t = false) (hu : t ≤ u) :
    (c.insertAt k t).memberAt k u = decide (u < t + c.ttl) := by
  obtain ⟨hent, hstale⟩ := insertAt_shape c k t h
  simp only [TTLCache.memberAt, hent, List.any_append, List.any_cons,
    List.any_nil, Bool.or_false, beq_self_eq_true, Bool.true_and]
  have hl : (c.room t).any (fun e => e.1 == k && decide (u < e.2)) = false := by
    rw [← Bool.not_eq_true, List.any_eq_true]
    rintro ⟨e, he, hp⟩
    simp only [Bool.and_eq_true, beq_iff_eq, decide_eq_true_eq] at hp
    have := hstale e he hp.1
    omega
  rw [hl]
  simp

theorem shouldAllow_of_member (c : TTLCache) (k : ℤ) (u : ℤ)
    (h : c.memberAt k u = true) : c.shouldAllow k u = (false, c) := by
  simp [TTLCache.shouldAllow, h]

theorem shouldAllow_of_not_member (c : TTLCache) (k : ℤ) (u : ℤ)
    (h : c.memberAt k u = false) : c.shouldAllow k u = (true, c.insertAt k u) := by
  simp [TTLCache.shouldAllow, h]

theorem shouldAllow_fst_true (c : TTLCache) (k : ℤ) (t : ℤ)
    (h : (c.shouldAllow k t).1 = true) :
    c.memberAt k t = false ∧ (c.shouldAllow k t).2 = c.insertAt k t := by
  by_cases hm : c.memberAt k t
  · rw [shouldAllow_of_member c k t hm] at h
    simp at h
  · simp only [Bool.not_eq_true] at hm
    exact ⟨hm, by rw [shouldAllow_of_not_member c k t hm]⟩

theorem runChecks_suppressed (c : TTLCache) (k : ℤ) (ts : List ℤ)
    (h : ∀ u ∈ ts, c.memberAt k u = true) :
    runChecks c k ts = (ts.map fun _ => false, c) := by
  induction ts with
  | nil => rfl
  | cons u ts ih =>
    simp only [runChecks, shouldAllow_of_member c k u (h u (by simp))]
    rw [ih fun v hv => h v (by simp [hv])]
    simp

theorem allowSeq_append (c : TTLCache) (t : ℤ) (xs ys : List ℤ) :
    allowSeq c t (xs ++ ys)
      = ((allowSeq c t xs).1 ++ (allowSeq (allowSeq c t xs).2 t ys).1,
         (allowSeq (allowSeq c t xs).2 t ys).2) := by
  induction xs generalizing c with
  | nil => simp [allowSeq]
  | cons x xs ih =>
    simp only [List.cons_append, allowSeq]
    rw [List.append_eq, ih]

theorem allowSeq_stuck (c : TTLCache) (k t : ℤ) (n : ℕ)
    (h : c.memberAt k t = true) :
    allowSeq c t (List.replicate n k) = (List.replicate n false, c) := by
  induction n with
  | zero => rfl
  | succ n ih =>
    simp only [List.replicate_succ, allowSeq, shouldAllow_of_member c k t h]
    rw [ih]

/-- Starting from a policy's empty store, serially checking a list of
distinct fresh subjects at one time admits every one of them and leaves
exactly the insertion-ordered suffix of the last `cap` subjects, each with
expiry `t + w`. -/
theorem allowSeq_fresh (w : ℤ) (cap : ℕ) (t : ℤ) (hw : 0 < w) (hcap : 1 ≤ cap)
    (xs : List ℤ) (hnd : xs.Nodup) :
    (∀ b ∈ (allowSeq ⟨w, cap, []⟩ t xs).1, b = true) ∧
    (allowSeq ⟨w, cap, []⟩ t xs).2
      = ⟨w, cap, (xs.drop (xs.length - cap)).map fun x => (x, t + w)⟩ := by
  induction xs using List.reverseRecOn with
  | nil => simp [allowSeq]
  | append_singleton l a ih =>
    rw [List.nodup_append] at hnd
    obtain ⟨hl, -, hdisj⟩ := hnd
    have ha : a ∉ l := fun hmem => hdisj hmem (by simp)
    obtain ⟨ihres, ihstate⟩ := ih hl
    have hmem : (TTLCache.memberAt
        ⟨w, cap, (l.drop (l.length - cap)).map fun x => (x, t + w)⟩ a t) = false := by
      rw [← Bool.not_eq_true]
      simp only [TTLCache.memberAt, List.any_eq_true]
      rintro ⟨e, he, hp⟩
      simp only [List.mem_map] at he
      obtain ⟨x, hx, rfl⟩ := he
      simp only [Bool.and_eq_true, beq_iff_eq, decide_eq_true_eq] at hp
      exact ha (hp.1 ▸ List.mem_of_mem_drop hx)
    have hpurge : expirePurge t ((l.drop (l.length - cap)).map fun x => (x, t + w))
        = (l.drop (l.length - cap)).map fun x => (x, t + w) := by
      refine dropWhile_eq_self_of_false fun e he => ?_
      simp only [List.mem_map] at he
      obtain ⟨x, -, rfl⟩ := he
      simp only [decide_eq_false_iff_not]
      omega
    have hsingle : allowSeq
        ⟨w, cap, (l.drop (l.length - cap)).map fun x => (x, t + w)⟩ t [a]
        = ([true], TTLCache.insertAt
            ⟨w, cap, (l.drop (l.length - cap)).map fun x => (x, t + w)⟩ a t) := by
      simp only [allowSeq, shouldAllow_of_not_member _ _ _ hmem]
    rw [allowSeq_append, ihstate, hsingle]
    constructor
    · intro b hb
      simp only [List.mem_append, List.mem_singleton] at hb
      rcases hb with hb | hb
      · exact ihres b hb
      · exact hb
    · simp only [TTLCache.insertAt, TTLCache.room, hpurge]
      simp only [List.length_map, List.length_drop, List.length_append,
        List.length_singleton]
      by_cases hc : cap ≤ l.length
      · have h1 : cap ≤ l.length - (l.length - cap) := by omega
        rw [if_pos h1]
        have h2 : l.length - (l.length - cap) + 1 - cap = 1 := by omega
        rw [h2]
        have h3 : (((l.drop (l.length - cap)).map fun x => (x, t + w)).drop 1)
            = (l.drop (l.length - cap + 1)).map fun x => (x, t + w) := by
          rw [← List.map_drop, List.drop_drop]
        rw [h3]
        have h4 : l.length + 1 - cap = l.length - cap + 1 := by omega
        have h5 : (l ++ [a]).drop (l.length + 1 - cap)
            = l.drop (l.length - cap + 1) ++ [a] := by
          rw [h4, List.drop_append_of_le_length (by omega)]
        rw [h5, List.map_append]
        rfl
      · have h1 : ¬ cap ≤ l.length - (l.length - cap) := by omega
        rw [if_neg h1]
        have h2 : l.length - cap = 0 := by omega
        have h3 : l.length + 1 - cap = 0 := by omega
        rw [h2, h3]
        simp [List.map_append]

/-- Claim C1: after an admitted check for `(p, s)` at time `t`, every later
check for the same pair at a time `t' < t + w` is suppressed and leaves the
store untouched, and a check at `t' ≥ t + w` is admitted again.  `w` is the
policy's window (`ttl`), positive as registration requires, and the
monotonic clock puts every later check at a time `≥ t`. -/
theorem window_fixed_suppression (c : TTLCache) (k t t' : ℤ) (ts : List ℤ)
    (hw : 0 < c.ttl)
    (h : (c.shouldAllow k t).1 = true)
    (hts : ∀ u ∈ ts, t ≤ u ∧ u < t + c.ttl)
    (ht' : t + c.ttl ≤ t') :
    (∀ b ∈ (runChecks (c.shouldAllow k t).2 k ts).1, b = false) ∧
    (runChecks (c.shouldAllow k t).2 k ts).2 = (c.shouldAllow k t).2 ∧
    ((runChecks (c.shouldAllow k t).2 k ts).2.shouldAllow k t').1 = true := by
  obtain ⟨hm, h2⟩ := shouldAllow_fst_true c k t h
  rw [h2]
  have hmem : ∀ u ∈ ts, (c.insertAt k t).memberAt k u = true := by
    intro u hu
    obtain ⟨h1u, h2u⟩ := hts u hu
    rw [memberAt_after_insert c k t u hm h1u]
    exact decide_eq_true h2u
  rw [runChecks_suppressed _ k ts hmem]
  refine ⟨by simp, rfl, ?_⟩
  have hdead : (c.insertAt k t).memberAt k t' = false := by
    rw [memberAt_after_insert c k t t' hm (by omega)]
    simp
    omega
  rw [shouldAllow_of_not_member _ _ _ hdead]

/-- Witness for `window_fixed_suppression`: the shipped `default` policy
(window 2), subject 42 admitted at time 0, suppressed at times 0 and 1,
admitted again at time 2. -/
theorem window_fixed_suppression_witness :
    ((0:ℤ) < (TTLCache.ttl ⟨2, 10000, []⟩) ∧
      (TTLCache.shouldAllow ⟨2, 10000, []⟩ 42 0).1 = true ∧
      (∀ u ∈ [(0:ℤ), 1], 0 ≤ u ∧ u < 0 + (TTLCache.ttl ⟨2, 10000, []⟩)) ∧
      0 + (TTLCache.ttl ⟨2, 10000, []⟩) ≤ (2:ℤ)) ∧
    ((∀ b ∈ (runChecks (TTLCache.shouldAllow ⟨2, 10000, []⟩ 42 0).2 42 [0, 1]).1,
        b = false) ∧
      (runChecks (TTLCache.shouldAllow ⟨2, 10000, []⟩ 42 0).2 42 [0, 1]).2
        = (TTLCache.shouldAllow ⟨2, 10000, []⟩ 42 0).2 ∧
      ((runChecks (TTLCache.shouldAllow ⟨2, 10000, []⟩ 42 0).2 42
          [0, 1]).2.shouldAllow 42 2).1 = true) :=
  ⟨⟨by decide, by decide, by decide, by decide⟩,
    window_fixed_suppression ⟨2, 10000, []⟩ 42 0 2 [0, 1]
      (by decide) (by decide) (by decide) (by decide)⟩

theorem insertAt_length_le (c : TTLCache) (k now : ℤ) (h : 1 ≤ c.maxsize) :
    (c.insertAt k now).entries.length ≤ c.maxsize := by
  simp only [TTLCache.insertAt, TTLCache.room, List.length_append,
    List.length_singleton]
  by_cases hc : c.maxsize ≤ (expirePurge now c.entries).length
  · rw [if_pos hc]
    simp only [List.length_drop]
    omega
  · rw [if_neg hc]
    omega

/-- Claim C2: a policy's store never holds more than `capacity` entries,
and after admitting `capacity + 1` distinct subjects within the window the
oldest-inserted one has been evicted, so its next check is admitted again
even though its original window has not elapsed. -/
theorem capacity_bound_and_eviction (w : ℤ) (cap : ℕ) (x₀ : ℤ) (xs : List ℤ)
    (t t' : ℤ) (hw : 0 < w) (hcap : 1 ≤ cap)
    (hlen : (x₀ :: xs).length = cap + 1) (hnd : (x₀ :: xs).Nodup)
    (ht : t ≤ t') (ht' : t' < t + w) :
    (∀ (c : TTLCache) (k u : ℤ), 1 ≤ c.maxsize →
        c.entries.length ≤ c.maxsize →
        ((c.shouldAllow k u).2).entries.length ≤ c.maxsize) ∧
    (∀ b ∈ (allowSeq ⟨w, cap, []⟩ t (x₀ :: xs)).1, b = true) ∧
    ((allowSeq ⟨w, cap, []⟩ t (x₀ :: xs)).2.shouldAllow x₀ t').1 = true := by
  obtain ⟨hres, hstate⟩ := allowSeq_fresh w cap t hw hcap (x₀ :: xs) hnd
  refine ⟨?_, hres, ?_⟩
  · intro c k u h1 h2
    by_cases hm : c.memberAt k u
    · rw [shouldAllow_of_member c k u hm]
      exact h2
    · rw [shouldAllow_of_not_member c k u (by simpa using hm)]
      exact insertAt_length_le c k u h1
  · rw [hstate]
    have hdrop : (x₀ :: xs).length - cap = 1 := by
      simp only [List.length_cons] at hlen ⊢
      omega
    rw [hdrop]
    have hx₀ : x₀ ∉ xs := (List.nodup_cons.1 hnd).1
    have hmem : (TTLCache.memberAt
        ⟨w, cap, (List.drop 1 (x₀ :: xs)).map fun x => (x, t + w)⟩ x₀ t') = false := by
      rw [← Bool.not_eq_true]
      simp only [TTLCache.memberAt, List.any_eq_true, List.drop_succ_cons,
        List.drop_zero]
      rintro ⟨e, he, hp⟩
      simp only [List.mem_map] at he
      obtain ⟨x, hx, rfl⟩ := he
      simp only [Bool.and_eq_true, beq_iff_eq, decide_eq_true_eq] at hp
      exact hx₀ (hp.1 ▸ hx)
    rw [shouldAllow_of_not_member _ _ _ hmem]

/-- Witness for `capacity_bound_and_eviction`: window 2, capacity 2,
subjects 5, 6, 7 admitted at time 0; subject 5 is admitted again at time 1,
inside its original window. -/
theorem capacity_bound_and_eviction_witness :
    ((0:ℤ) < 2 ∧ 1 ≤ 2 ∧
      ([(5:ℤ), 6, 7].length = 2 + 1) ∧ ([(5:ℤ), 6, 7]).Nodup ∧
      (0:ℤ) ≤ 1 ∧ (1:ℤ) < 0 + 2) ∧
    ((∀ (c : TTLCache) (k u : ℤ), 1 ≤ c.maxsize →
        c.entries.length ≤ c.maxsize →
        ((c.shouldAllow k u).2).entries.length ≤ c.maxsize) ∧
      (∀ b ∈ (allowSeq ⟨2, 2, []⟩ 0 [5, 6, 7]).1, b = true) ∧
      ((allowSeq ⟨2, 2, []⟩ 0 [5, 6, 7]).2.shouldAllow 5 1).1 = true) :=
  ⟨⟨by decide, by decide, by decide, by decide, by decide, by decide⟩,
    capacity_bound_and_eviction 2 2 5 [6, 7] 0 1
      (by decide) (by decide) (by decide) (by decide) (by decide) (by decide)⟩

/-- Claim C7: a burst of `N` checks for one never-before-seen subject,
executed in the serialized order the single-threaded event loop guarantees
(no suspension point separates the membership check from the insertion),
admits exactly the first one: one `true` and `N - 1` `false` results. -/
theorem single_admitted_among_burst (c : TTLCache) (k t : ℤ) (N : ℕ)
    (hfresh : c.memberAt k t = false) (hw : 0 < c.ttl) (hN : 1 ≤ N) :
    (allowSeq c t (List.replicate N k)).1 = true :: List.replicate (N - 1) false ∧
    (allowSeq c t (List.replicate N k)).1.count true = 1 ∧
    (allowSeq c t (List.replicate N k)).1.count false = N - 1 := by
  obtain ⟨m, rfl⟩ : ∃ m, N = m + 1 := ⟨N - 1, by omega⟩
  have hlive : (c.insertAt k t).memberAt k t = true := by
    rw [memberAt_after_insert c k t t hfresh le_rfl]
    exact decide_eq_true (by omega)
  have hseq : allowSeq c t (List.replicate (m + 1) k)
      = (true :: List.replicate m false, c.insertAt k t) := by
    rw [List.replicate_succ]
    simp only [allowSeq, shouldAllow_of_not_member _ _ _ hfresh]
    rw [allowSeq_stuck _ k t m hlive]
  rw [hseq]
  refine ⟨by simp, ?_, ?_⟩
  · simp [List.count_cons, List.count_replicate]
  · simp [List.count_cons, List.count_replicate]

/-- Witness for `single_admitted_among_burst`: three simultaneous checks
for fresh subject 42 against the shipped default policy. -/
theorem single_admitted_among_burst_witness :
    ((TTLCache.memberAt ⟨2, 10000, []⟩ 42 0 = false) ∧
      (0:ℤ) < (TTLCache.ttl ⟨2, 10000, []⟩) ∧ 1 ≤ 3) ∧
    ((allowSeq ⟨2, 10000, []⟩ 0 (List.replicate 3 42)).1
        = true :: List.replicate (3 - 1) false ∧
      (allowSeq ⟨2, 10000, []⟩ 0 (List.replicate 3 42)).1.count true = 1 ∧
      (allowSeq ⟨2, 10000, []⟩ 0 (List.replicate 3 42)).1.count false = 3 - 1) :=
  ⟨⟨by decide, by decide, by decide⟩,
    single_admitted_among_burst ⟨2, 10000, []⟩ 42 0 3
      (by decide) (by decide) (by decide)⟩

/-- Claim C3: when the resolved cache holds a live entry for the chat, the
middleware returns early — the downstream handler is not invoked, nothing
else runs, and the registry is untouched; otherwise the handler is invoked
with the event and data after the chat id is marked. -/
theorem throttled_short_circuit {α : Type} (reg : Registry)
    (handler : Message → HandlerData → α) (event : Message) (data : HandlerData)
    (now : ℤ) (flag : RateLimitFlag) (name : String) (cache : TTLCache)
    (hf : data.rateLimit = some flag)
    (hres : resolveCache reg (flag.key.getD "default") = .ok (name, cache)) :
    (cache.memberAt event.chat.id now = true →
      middlewareCall reg handler event data now = .ok (.throttled, reg)) ∧
    (cache.memberAt event.chat.id now = false →
      middlewareCall reg handler event data now
        = .ok (.handled (handler event data),
               setCache reg name (cache.insertAt event.chat.id now))) := by
  constructor <;> intro hm <;> simp [middlewareCall, hf, hres, hm]

/-- Witness for `throttled_short_circuit`: the shipped registry, a flagged
event in chat 42 at time 0 (fresh, so the second conjunct fires), and the
same theorem applied again. -/
theorem throttled_short_circuit_witness :
    (((⟨some ⟨none⟩⟩ : HandlerData).rateLimit = some ⟨none⟩) ∧
      resolveCache caches ((⟨none⟩ : RateLimitFlag).key.getD "default")
        = .ok ("default", ⟨2, 10000, []⟩)) ∧
    (((⟨2, 10000, []⟩ : TTLCache).memberAt
        (⟨⟨42⟩, none⟩ : Message).chat.id 0 = true →
      middlewareCall caches (fun _ _ => (7:ℤ)) ⟨⟨42⟩, none⟩ ⟨some ⟨none⟩⟩ 0
        = .ok (.throttled, caches)) ∧
    ((⟨2, 10000, []⟩ : TTLCache).memberAt
        (⟨⟨42⟩, none⟩ : Message).chat.id 0 = false →
      middlewareCall caches (fun _ _ => (7:ℤ)) ⟨⟨42⟩, none⟩ ⟨some ⟨none⟩⟩ 0
        = .ok (.handled (7:ℤ),
               setCache caches "default"
                 (TTLCache.insertAt ⟨2, 10000, []⟩
                   (⟨⟨42⟩, none⟩ : Message).chat.id 0)))) :=
  ⟨⟨rfl, rfl⟩,
    throttled_short_circuit caches (fun _ _ => (7:ℤ)) ⟨⟨42⟩, none⟩ ⟨some ⟨none⟩⟩
      0 ⟨none⟩ "default" ⟨2, 10000, []⟩ rfl rfl⟩

/-- Claim C4: a suppressed check is pure — the whole store, in particular
the live entry of the checked subject and its expiry, is exactly what it
was, so the window stays anchored at the original admission time. -/
theorem suppressed_check_is_pure (c : TTLCache) (k now : ℤ)
    (h : (c.shouldAllow k now).1 = false) :
    (c.shouldAllow k now).2 = c := by
  by_cases hm : c.memberAt k now
  · rw [shouldAllow_of_member c k now hm]
  · rw [shouldAllow_of_not_member c k now (by simpa using hm)] at h
    simp at h

/-- Witness for `suppressed_check_is_pure`: a store holding a live entry
for chat 42 (expiry 5), checked at time 0. -/
theorem suppressed_check_is_pure_witness :
    ((TTLCache.shouldAllow ⟨2, 10000, [(42, 5)]⟩ 42 0).1 = false) ∧
    (TTLCache.shouldAllow ⟨2, 10000, [(42, 5)]⟩ 42 0).2
      = ⟨2, 10000, [(42, 5)]⟩ :=
  ⟨by decide, suppressed_check_is_pure ⟨2, 10000, [(42, 5)]⟩ 42 0 (by decide)⟩

/-- Claim C5: an unknown policy name with a registered default resolves to
the default policy's store — the decision and the mutation then happen in
that store — and with no registered default it fails with
`UnknownPolicyError`. -/
theorem unknown_policy_fallback (reg : Registry) (k : String) (d : TTLCache)
    (hk : lookupCache reg k = none) :
    (lookupCache reg "default" = some d →
      resolveCache reg k = .ok ("default", d)) ∧
    (lookupCache reg "default" = some d →
      ∀ (α : Type) (handler : Message → HandlerData → α) (event : Message)
        (data : HandlerData) (flag : RateLimitFlag) (now : ℤ),
        data.rateLimit = some flag → flag.key.getD "default" = k →
        middlewareCall reg handler event data now =
          (if d.memberAt event.chat.id now then .ok (.throttled, reg)
           else .ok (.handled (handler event data),
                     setCache reg "default" (d.insertAt event.chat.id now)))) ∧
    (lookupCache reg "default" = none →
      resolveCache reg k = .error .unknownPolicy) := by
  refine ⟨?_, ?_, ?_⟩
  · intro hd
    simp [resolveCache, hk, hd]
  · intro hd α handler event data flag now hf hkey
    have hres : resolveCache reg (flag.key.getD "default") = .ok ("default", d) := by
      rw [hkey]
      simp [resolveCache, hk, hd]
    simp [middlewareCall, hf, hres]
  · intro hd
    simp [resolveCache, hk, hd]

/-- Witness for `unknown_policy_fallback`: the key `"burst"` is unknown to
the shipped registry, which registers a default. -/
theorem unknown_policy_fallback_witness :
    (lookupCache caches "burst" = none) ∧
    ((lookupCache caches "default" = some ⟨2, 10000, []⟩ →
      resolveCache caches "burst" = .ok ("default", ⟨2, 10000, []⟩)) ∧
    (lookupCache caches "default" = some ⟨2, 10000, []⟩ →
      ∀ (α : Type) (handler : Message → HandlerData → α) (event : Message)
        (data : HandlerData) (flag : RateLimitFlag) (now : ℤ),
        data.rateLimit = some flag → flag.key.getD "default" = "burst" →
        middlewareCall caches handler event data now =
          (if TTLCache.memberAt ⟨2, 10000, []⟩ event.chat.id now
            then .ok (.throttled, caches)
           else .ok (.handled (handler event data),
                     setCache caches "default"
                       (TTLCache.insertAt ⟨2, 10000, []⟩ event.chat.id now)))) ∧
    (lookupCache caches "default" = none →
      resolveCache caches "burst" = .error .unknownPolicy)) :=
  ⟨rfl, unknown_policy_fallback caches "burst" ⟨2, 10000, []⟩ rfl⟩

/-- Claim C6: registering a policy with `window ≤ 0` or `capacity ≤ 0`
fails with `ConfigurationError`; in particular `register_policy("burst",
window=0, capacity=5)` does. -/
theorem register_policy_validation (reg : Registry) (name : String) (w cap : ℤ)
    (h : w ≤ 0 ∨ cap ≤ 0) :
    registerPolicy reg name w cap = .error .configurationError ∧
    registerPolicy reg "burst" 0 5 = .error .configurationError := by
  constructor
  · unfold registerPolicy
    rw [if_pos h]
  · unfold registerPolicy
    rw [if_pos (Or.inl le_rfl)]

/-- Witness for `register_policy_validation`: a negative window on an empty
registry. -/
theorem register_policy_validation_witness :
    ((-1:ℤ) ≤ 0 ∨ (3:ℤ) ≤ 0) ∧
    (registerPolicy [] "slow" (-1) 3 = .error .configurationError ∧
      registerPolicy [] "burst" 0 5 = .error .configurationError) :=
  ⟨by decide, register_policy_validation [] "slow" (-1) 3 (by decide)⟩

/-- Claim C8: when the event's policy name resolves (it is known, or a
default is registered), the middleware call returns a result and never an
error — expired entries, full stores and fresh subjects are plain control
flow; and resolution itself succeeds for every known name and, whatever the
name, whenever a default is registered. -/
theorem resolved_policy_no_throw {α : Type} (reg : Registry)
    (handler : Message → HandlerData → α) (event : Message) (data : HandlerData)
    (now : ℤ)
    (hres : (data.rateLimit.all fun flag =>
        isOkResult (resolveCache reg (flag.key.getD "default"))) = true) :
    isOkResult (middlewareCall reg handler event data now) = true ∧
    (∀ (k : String) (c : TTLCache), lookupCache reg k = some c →
      isOkResult (resolveCache reg k) = true) ∧
    (∀ (k : String) (d : TTLCache), lookupCache reg "default" = some d →
      isOkResult (resolveCache reg k) = true) := by
  refine ⟨?_, ?_, ?_⟩
  · cases hfl : data.rateLimit with
    | none => simp [middlewareCall, hfl, isOkResult]
    | some flag =>
      rw [hfl] at hres
      simp only [Option.all_some] at hres
      cases hr : resolveCache reg (flag.key.getD "default") with
      | error e =>
        rw [hr] at hres
        simp [isOkResult] at hres
      | ok nc =>
        simp only [middlewareCall, hfl, hr]
        split <;> simp [isOkResult]
  · intro k c hkc
    simp [resolveCache, hkc, isOkResult]
  · intro k d hd
    cases hkc : lookupCache reg k with
    | some c => simp [resolveCache, hkc, isOkResult]
    | none => simp [resolveCache, hkc, hd, isOkResult]

/-- Witness for `resolved_policy_no_throw`: a flagged event against the
shipped registry, whose every name resolves through the default. -/
theorem resolved_policy_no_throw_witness :
    (Option.all
        (fun flag => isOkResult (resolveCache caches (flag.key.getD "default")))
        (HandlerData.rateLimit ⟨some ⟨none⟩⟩)) = true ∧
    (isOkResult (middlewareCall caches (fun _ _ => (0:ℤ)) ⟨⟨1⟩, none⟩
        ⟨some ⟨none⟩⟩ 3) = true ∧
      (∀ (k : String) (c : TTLCache), lookupCache caches k = some c →
        isOkResult (resolveCache caches k) = true) ∧
      (∀ (k : String) (d : TTLCache), lookupCache caches "default" = some d →
        isOkResult (resolveCache caches k) = true)) :=
  ⟨rfl, resolved_policy_no_throw caches (fun _ _ => (0:ℤ)) ⟨⟨1⟩, none⟩
    ⟨some ⟨none⟩⟩ 3 rfl⟩

/-- Claim C9: an event whose handler data carries no `rate_limit` flag goes
straight to the downstream handler and every cache in the registry is left
exactly as it was. -/
theorem unflagged_passthrough {α : Type} (reg : Registry)
    (handler : Message → HandlerData → α) (event : Message) (data : HandlerData)
    (now : ℤ) (h : data.rateLimit = none) :
    middlewareCall reg handler event data now
      = .ok (.handled (handler event data), reg) := by
  simp [middlewareCall, h]

/-- Witness for `unflagged_passthrough`: an unflagged event against the
shipped registry. -/
theorem unflagged_passthrough_witness :
    ((⟨none⟩ : HandlerData).rateLimit = none) ∧
    middlewareCall caches (fun _ _ => (9:ℤ)) ⟨⟨1⟩, none⟩ ⟨none⟩ 0
      = .ok (.handled (9:ℤ), caches) :=
  ⟨rfl, unflagged_passthrough caches (fun _ _ => (9:ℤ)) ⟨⟨1⟩, none⟩ ⟨none⟩ 0 rfl⟩

theorem resolveCache_single_default (c : TTLCache) (s : String) :
    resolveCache [("default", c)] s = .ok ("default", c) := by
  by_cases h : "default" = s
  · subst h
    rfl
  · simp [resolveCache, lookupCache, h]

/-- Claim C10: the suppression subject is the chat id, not the sending
user's id: from the shipped registry, a flagged event in a chat is admitted
and any second flagged event in the same chat within the window is
throttled, whatever `from_user` either message carries. -/
theorem chat_id_is_subject {α : Type} (handler : Message → HandlerData → α)
    (e₁ e₂ : Message) (data : HandlerData) (flag : RateLimitFlag) (t₁ t₂ : ℤ)
    (hflag : data.rateLimit = some flag)
    (hchat : e₁.chat.id = e₂.chat.id)
    (ht : t₁ ≤ t₂) (ht₂ : t₂ < t₁ + 2) :
    ∃ reg' : Registry,
      middlewareCall caches handler e₁ data t₁
        = .ok (.handled (handler e₁ data), reg') ∧
      middlewareCall reg' handler e₂ data t₂ = .ok (.throttled, reg') := by
  refine ⟨[("default", TTLCache.insertAt ⟨2, 10000, []⟩ e₁.chat.id t₁)], ?_, ?_⟩
  · have hres := resolveCache_single_default (⟨2, 10000, []⟩ : TTLCache)
      (flag.key.getD "default")
    have hm : (⟨2, 10000, []⟩ : TTLCache).memberAt e₁.chat.id t₁ = false := rfl
    have hset : setCache [("default", (⟨2, 10000, []⟩ : TTLCache))] "default"
        (TTLCache.insertAt ⟨2, 10000, []⟩ e₁.chat.id t₁)
        = [("default", TTLCache.insertAt ⟨2, 10000, []⟩ e₁.chat.id t₁)] := rfl
    show middlewareCall [("default", ⟨2, 10000, []⟩)] handler e₁ data t₁ = _
    simp [middlewareCall, hflag, hres, hm, hset]
  · have hres := resolveCache_single_default
      (TTLCache.insertAt ⟨2, 10000, []⟩ e₁.chat.id t₁) (flag.key.getD "default")
    have hent : TTLCache.insertAt ⟨2, 10000, []⟩ e₁.chat.id t₁
        = ⟨2, 10000, [(e₁.chat.id, t₁ + 2)]⟩ := rfl
    have hm : (TTLCache.insertAt ⟨2, 10000, []⟩ e₁.chat.id t₁).memberAt
        e₂.chat.id t₂ = true := by
      rw [hent]
      simp [TTLCache.memberAt, hchat, ht₂]
    simp [middlewareCall, hflag, hres, hm]

/-- Witness for `chat_id_is_subject`: two messages in chat 99 sent by two
different users at times 0 and 1. -/
theorem chat_id_is_subject_witness :
    (((⟨some ⟨none⟩⟩ : HandlerData).rateLimit = some ⟨none⟩) ∧
      (⟨⟨99⟩, some 1⟩ : Message).chat.id = (⟨⟨99⟩, some 2⟩ : Message).chat.id ∧
      (0:ℤ) ≤ 1 ∧ (1:ℤ) < 0 + 2) ∧
    (∃ reg' : Registry,
      middlewareCall caches (fun _ _ => (5:ℤ)) ⟨⟨99⟩, some 1⟩ ⟨some ⟨none⟩⟩ 0
        = .ok (.handled (5:ℤ), reg') ∧
      middlewareCall reg' (fun _ _ => (5:ℤ)) ⟨⟨99⟩, some 2⟩ ⟨some ⟨none⟩⟩ 1
        = .ok (.throttled, reg')) :=
  ⟨⟨rfl, rfl, by decide, by decide⟩,
    chat_id_is_subject (fun _ _ => (5:ℤ)) ⟨⟨99⟩, some 1⟩ ⟨⟨99⟩, some 2⟩
      ⟨some ⟨none⟩⟩ ⟨none⟩ 0 1 rfl rfl (by decide) (by decide)⟩

end Throttling
